import Mathlib

/-!
Shallow embedding of `src/VG_exam_programming_embedded_systems.cpp`.

The program is a producer/consumer pipeline around a bounded circular buffer:

* `Vehicle` / `Car` / `Truck` (lines 20-69): the payload hierarchy. `Car id m`
  sets `maxPassengers = 4`; `Truck id m` sets `maxLoad = 4000`.
* `Warehouse` (lines 72-116): fixed-capacity circular buffer with fields
  `vehicles : std::vector<Vehicle*>` (of length `CAPACITY`, empty slot =
  `nullptr`, modelled by `Option Vehicle` with `none` for `nullptr`),
  and `int count, front, rear` (modelled by `Int`). `addVehicle` waits for
  `count < CAPACITY`, writes at `rear`, advances `rear` circularly and
  increments `count`; `removeVehicle` waits for `count > 0`, reads and clears
  the slot at `front`, advances `front` circularly and decrements `count`.
  C++ `%` on `int` truncates towards zero, so it is modelled by `Int.tmod`.
* the producer (lines 119-133) draws a coin in `{0, 1}` and builds
  a `Car` or a `Truck` with a post-incremented id starting at `startID`;
  `main` (lines 148-169) starts it with `startID = 1001` and hardcodes
  `numConsumers = 4`.

Since the mutex serialises `addVehicle`/`removeVehicle` bodies, a concurrent
execution is a sequence of completed operations; `runOps` replays such a
sequence, failing (`none`) on an operation whose wait-guard does not hold at
its turn (in the program that operation would still be blocked, hence not yet
completed).
-/

/-- Payload hierarchy: abstract class `Vehicle` with derived `Car` (extra field
`maxPassengers`) and `Truck` (extra field `maxLoad`); every vehicle has an
`ID`, a `model` string and a type tag given here by the constructor. -/
inductive Vehicle where
  | car (id : Int) (model : String) (maxPassengers : Int)
  | truck (id : Int) (model : String) (maxLoad : Int)
  deriving DecidableEq, Repr

/-- `Car::Car(int id, const std::string &model)`: sets `maxPassengers = 4`. -/
def Car (id : Int) (model : String) : Vehicle := Vehicle.car id model 4

/-- `Truck::Truck(int id, const std::string &model)`: sets `maxLoad = 4000`. -/
def Truck (id : Int) (model : String) : Vehicle := Vehicle.truck id model 4000

/-- The `ID` field shared by both derived classes. -/
def Vehicle.ID : Vehicle → Int
  | .car i _ _ => i
  | .truck i _ _ => i

/-- State of the `Warehouse` class: the storage vector and the three `int`
fields. The capacity is the compile-time macro `CAPACITY`, passed here as an
explicit parameter to the operations. -/
structure Warehouse where
  vehicles : List (Option Vehicle)
  count : Int
  front : Int
  rear : Int
  deriving DecidableEq, Repr

/-- `Warehouse::Warehouse() : count(0), front(0), rear(0)` with
`vehicles.resize(CAPACITY, nullptr)`. -/
def warehouseInit (cap : Int) : Warehouse :=
  { vehicles := List.replicate cap.toNat none
    count := 0
    front := 0
    rear := 0 }

/-- `Warehouse::addVehicle`: the condition variable makes the body run only
once `count < CAPACITY`; then `vehicles[rear] = vehicle;
rear = (rear + 1) % CAPACITY; count++;`. A call whose guard does not hold is
still blocked, which the sequential replay renders as `none`. -/
def addVehicle (cap : Int) (w : Warehouse) (v : Vehicle) : Option Warehouse :=
  if w.count < cap then
    some { vehicles := w.vehicles.set w.rear.toNat (some v)
           count := w.count + 1
           front := w.front
           rear := (w.rear + 1).tmod cap }
  else none

/-- `Warehouse::removeVehicle`: the body runs only once `count > 0`; then
`Vehicle *vehicle = vehicles[front]; vehicles[front] = nullptr;
front = (front + 1) % CAPACITY; count--; return vehicle;`. -/
def removeVehicle (cap : Int) (w : Warehouse) : Option (Warehouse × Option Vehicle) :=
  if w.count > 0 then
    some ({ vehicles := w.vehicles.set w.front.toNat none
            count := w.count - 1
            front := (w.front + 1).tmod cap
            rear := w.rear },
          w.vehicles.getD w.front.toNat none)
  else none

/-- One completed buffer operation: an insertion of a given vehicle, or a
removal. -/
inductive Op where
  | add (v : Vehicle)
  | remove
  deriving DecidableEq, Repr

/-- Replay a sequence of completed operations, collecting the values returned
by the removals in order. `none` means some operation's wait-guard failed at
its turn, so that sequence of completions cannot occur. -/
def runOps (cap : Int) : Warehouse → List Op → Option (Warehouse × List (Option Vehicle))
  | w, [] => some (w, [])
  | w, Op.add v :: t =>
      match addVehicle cap w v with
      | none => none
      | some w₁ => runOps cap w₁ t
  | w, Op.remove :: t =>
      match removeVehicle cap w with
      | none => none
      | some (w₁, r) =>
          match runOps cap w₁ t with
          | none => none
          | some (wf, rs) => some (wf, r :: rs)

/-- The vehicles inserted by a sequence of operations, in insertion order. -/
def addedOf : List Op → List Vehicle
  | [] => []
  | Op.add v :: t => v :: addedOf t
  | Op.remove :: t => addedOf t

/-- States reachable from a fresh `Warehouse` by completed
`addVehicle`/`removeVehicle` operations. -/
inductive Reachable (cap : Int) : Warehouse → Prop
  | init : Reachable cap (warehouseInit cap)
  | add {w w₁ : Warehouse} {v : Vehicle} :
      Reachable cap w → addVehicle cap w v = some w₁ → Reachable cap w₁
  | remove {w w₁ : Warehouse} {r : Option Vehicle} :
      Reachable cap w → removeVehicle cap w = some (w₁, r) → Reachable cap w₁

/-- Default of the `CAPACITY` macro when not set on the compile command
(lines 12-14); the build command documented at the top of the file passes
`-DCAPACITY=8`. -/
def defaultCapacity : Int := 10

/-- `main` starts the producer with `startID = 1001` (line 153). -/
def mainStartID : Int := 1001

/-- `main` has signature `int main()` and reads no input at all; the number of
consumer threads is the local constant `int numConsumers = 4;` (line 156), so
under any argument vector the program creates exactly 4 consumer threads. -/
def numConsumersOf (_argv : List String) : Int := 4

/-- One iteration of the producer loop (lines 125-132): draw `coin` from
`{0, 1}`; on `0` build `Car(id++, "SAAB")`, otherwise `Truck(id++, "VolvoTruck")`;
either way the produced vehicle carries the old `id` and `id` increments. -/
def producerStep (id : Int) (coin : Nat) : Vehicle × Int :=
  if coin = 0 then (Car id "SAAB", id + 1) else (Truck id "VolvoTruck", id + 1)

/-- The value of the producer's `id` variable before its `n`-th iteration
(0-indexed), given the stream of coin draws. -/
def producerIDAt (startID : Int) (coins : Nat → Nat) : Nat → Int
  | 0 => startID
  | n + 1 => (producerStep (producerIDAt startID coins n) (coins n)).2

/-- The vehicle produced at the `n`-th iteration (0-indexed) of the producer
loop. -/
def producedVehicle (startID : Int) (coins : Nat → Nat) (n : Nat) : Vehicle :=
  (producerStep (producerIDAt startID coins n) (coins n)).1

/-! ### Inversion of single operations -/

theorem addVehicle_eq_some {cap : Int} {w w₁ : Warehouse} {v : Vehicle}
    (h : addVehicle cap w v = some w₁) :
    w.count < cap ∧
      w₁ = { vehicles := w.vehicles.set w.rear.toNat (some v)
             count := w.count + 1
             front := w.front
             rear := (w.rear + 1).tmod cap } := by
  unfold addVehicle at h
  split at h
  next hc => exact ⟨hc, (Option.some.inj h).symm⟩
  next => simp at h

theorem removeVehicle_eq_some {cap : Int} {w w₁ : Warehouse} {r : Option Vehicle}
    (h : removeVehicle cap w = some (w₁, r)) :
    0 < w.count ∧
      w₁ = { vehicles := w.vehicles.set w.front.toNat none
             count := w.count - 1
             front := (w.front + 1).tmod cap
             rear := w.rear } ∧
      r = w.vehicles.getD w.front.toNat none := by
  unfold removeVehicle at h
  split at h
  next hc =>
    have h' := Option.some.inj h
    exact ⟨hc, (congrArg Prod.fst h').symm, (congrArg Prod.snd h').symm⟩
  next => simp at h

/-- C1: every state reachable from a fresh `Warehouse` by completed
`addVehicle`/`removeVehicle` operations has `0 ≤ count ≤ capacity`. -/
theorem reachable_count_in_range (cap : Int) (w : Warehouse) (hcap : 0 < cap)
    (h : Reachable cap w) : 0 ≤ w.count ∧ w.count ≤ cap := by
  induction h with
  | init => exact ⟨le_refl 0, le_of_lt hcap⟩
  | add hw hstep ih =>
    obtain ⟨hguard, rfl⟩ := addVehicle_eq_some hstep
    simp only []
    omega
  | remove hw hstep ih =>
    obtain ⟨hguard, rfl, -⟩ := removeVehicle_eq_some hstep
    simp only []
    omega

/-- Witness for C1: the fresh warehouse of capacity 8 is reachable and its
count lies in range. -/
theorem reachable_count_in_range_witness :
    0 ≤ (warehouseInit 8).count ∧ (warehouseInit 8).count ≤ 8 :=
  reachable_count_in_range 8 (warehouseInit 8) (by decide) Reachable.init

/-- C9: a fresh `Warehouse` has `count = 0`, `front = 0`, `rear = 0`, all of
its `capacity` storage slots hold the empty value, and `removeVehicle` cannot
proceed on it. -/
theorem warehouseInit_state (cap : Int) :
    (warehouseInit cap).count = 0 ∧ (warehouseInit cap).front = 0 ∧
    (warehouseInit cap).rear = 0 ∧
    (warehouseInit cap).vehicles.length = cap.toNat ∧
    (∀ i : Nat, i < cap.toNat → (warehouseInit cap).vehicles.getD i none = none) ∧
    removeVehicle cap (warehouseInit cap) = none := by
  refine ⟨rfl, rfl, rfl, by simp [warehouseInit], ?_, ?_⟩
  · intro i hi
    simp only [warehouseInit, List.getD_eq_getElem?_getD, List.getElem?_replicate]
    split <;> rfl
  · simp [removeVehicle, warehouseInit]

/-- Witness for C9, at capacity 8 and slot 3. -/
theorem warehouseInit_state_witness :
    (warehouseInit 8).vehicles.getD 3 none = none ∧
    removeVehicle 8 (warehouseInit 8) = none :=
  ⟨(warehouseInit_state 8).2.2.2.2.1 3 (by decide), (warehouseInit_state 8).2.2.2.2.2⟩

/-- C7 counterexample: with capacity 0 the constructor still succeeds — it
yields a `Warehouse` with no storage slots on which neither `addVehicle` nor
`removeVehicle` can ever complete. Nothing rejects or clamps the capacity. -/
theorem warehouseInit_zero_capacity_constructed :
    (warehouseInit 0).count = 0 ∧ (warehouseInit 0).vehicles.length = 0 ∧
    addVehicle 0 (warehouseInit 0) (Car 1001 "SAAB") = none ∧
    removeVehicle 0 (warehouseInit 0) = none :=
  ⟨rfl, rfl, rfl, rfl⟩

/-- `Warehouse::Warehouse()` including the failure path of
`vehicles.resize(CAPACITY, nullptr)`: `resize` takes a `size_t`, so a negative
`CAPACITY` converts to a value near 2^64 that exceeds the vector's
`max_size()` and `resize` throws `std::length_error` — construction fails and
the exception propagates to the caller. For `CAPACITY ≥ 0` the resize
succeeds and produces the state `warehouseInit cap`. -/
def warehouseCreate (cap : Int) : Except String Warehouse :=
  if 0 ≤ cap then Except.ok (warehouseInit cap) else Except.error "std::length_error"

/-- C7 amended: construction with a negative capacity does fail with an error
surfaced to the caller (`std::length_error` thrown by `resize` after the
negative `int` converts to a huge `size_t`); but construction with capacity 0
silently succeeds — nothing rejects or clamps it and no error is surfaced —
and yields a `Warehouse` with zero storage slots in an unusable state where
neither `addVehicle` nor `removeVehicle` can ever complete. -/
theorem warehouse_construction_unchecked (cap : Int) (v : Vehicle) :
    (cap < 0 → warehouseCreate cap = Except.error "std::length_error") ∧
    (cap = 0 →
      warehouseCreate cap = Except.ok (warehouseInit 0) ∧
      (warehouseInit 0).vehicles.length = 0 ∧
      addVehicle 0 (warehouseInit 0) v = none ∧
      removeVehicle 0 (warehouseInit 0) = none) := by
  constructor
  · intro hneg
    rw [warehouseCreate, if_neg (by omega)]
  · intro hzero
    subst hzero
    exact ⟨rfl, rfl, rfl, rfl⟩

/-- Witness for the amended C7: capacity −3 fails at construction, capacity 0
is constructed but unusable. -/
theorem warehouse_construction_unchecked_witness :
    warehouseCreate (-3) = Except.error "std::length_error" ∧
    addVehicle 0 (warehouseInit 0) (Truck 1002 "VolvoTruck") = none :=
  ⟨(warehouse_construction_unchecked (-3) (Truck 1002 "VolvoTruck")).1 (by decide),
   ((warehouse_construction_unchecked 0 (Truck 1002 "VolvoTruck")).2 rfl).2.2.1⟩

/-- C8: the number of consumer threads is the hardcoded constant 4 inside
`main`; it is ≥ 2, but it is not supplied at startup — the program creates 4
consumer threads no matter what is on the command line. -/
theorem consumer_count_hardcoded :
    numConsumersOf [] = 4 ∧ numConsumersOf ["7"] = 4 ∧ numConsumersOf ["2"] = 4 ∧
    2 ≤ numConsumersOf ["7"] ∧ numConsumersOf ["7"] ≠ 7 :=
  ⟨rfl, rfl, rfl, by decide, by decide⟩

/-! ### Producer id bookkeeping -/

theorem producerIDAt_eq (startID : Int) (coins : Nat → Nat) (n : Nat) :
    producerIDAt startID coins n = startID + (n : Int) := by
  induction n with
  | zero => simp [producerIDAt]
  | succ n ih =>
    simp only [producerIDAt, producerStep]
    split <;> simp [ih] <;> omega

theorem producedVehicle_ID (startID : Int) (coins : Nat → Nat) (n : Nat) :
    (producedVehicle startID coins n).ID = startID + (n : Int) := by
  have h := producerIDAt_eq startID coins n
  simp only [producedVehicle, producerStep]
  split <;> simp [Vehicle.ID, Car, Truck, h]

/-- C10: the vehicle produced at the `n`-th loop iteration (0-indexed; the
1-indexed `n`-th vehicle is iteration `n − 1`) has id `startID + n`, so ids
are strictly increasing — hence unique — and with `main`'s `startID = 1001`
every produced vehicle has an id greater than 1000. -/
theorem producer_id_sequence (startID : Int) (coins : Nat → Nat) (m n : Nat) :
    (producedVehicle startID coins n).ID = startID + (n : Int) ∧
    (m < n → (producedVehicle startID coins m).ID < (producedVehicle startID coins n).ID) ∧
    (startID = mainStartID → 1000 < (producedVehicle startID coins n).ID) := by
  refine ⟨producedVehicle_ID startID coins n, ?_, ?_⟩
  · intro hmn
    rw [producedVehicle_ID, producedVehicle_ID]
    omega
  · intro hs
    rw [producedVehicle_ID, hs]
    simp only [mainStartID]
    omega

/-- Witness for C10: with `startID = 1001`, the first two produced vehicles
have increasing ids above 1000. -/
theorem producer_id_sequence_witness :
    (producedVehicle 1001 (fun _ => 0) 0).ID < (producedVehicle 1001 (fun _ => 0) 1).ID ∧
    1000 < (producedVehicle 1001 (fun _ => 0) 1).ID :=
  ⟨(producer_id_sequence 1001 (fun _ => 0) 0 1).2.1 (by decide),
   (producer_id_sequence 1001 (fun _ => 0) 0 1).2.2 rfl⟩

/-- C4: from a well-formed state with `count < capacity`, `addVehicle`
completes, places the item in the slot at index `rear`, advances `rear` to
`(rear + 1) % capacity`, increments `count` by one, and leaves `front`, the
storage size and every other slot unchanged. -/
theorem addVehicle_effect (cap : Int) (w : Warehouse) (v : Vehicle)
    (hlen : w.vehicles.length = cap.toNat)
    (hr0 : 0 ≤ w.rear) (hr : w.rear < cap) (hc : w.count < cap) :
    ∃ w₁, addVehicle cap w v = some w₁ ∧
      w₁.vehicles.getD w.rear.toNat none = some v ∧
      w₁.rear = (w.rear + 1).tmod cap ∧
      w₁.count = w.count + 1 ∧
      w₁.front = w.front ∧
      w₁.vehicles.length = w.vehicles.length ∧
      (∀ i : Nat, i < w.vehicles.length → i ≠ w.rear.toNat →
        w₁.vehicles.getD i none = w.vehicles.getD i none) := by
  refine ⟨{ vehicles := w.vehicles.set w.rear.toNat (some v)
            count := w.count + 1
            front := w.front
            rear := (w.rear + 1).tmod cap },
          by rw [addVehicle, if_pos hc], ?_, rfl, rfl, rfl, by simp, ?_⟩
  · have hlt : w.rear.toNat < w.vehicles.length := by omega
    simp [List.getD_eq_getElem?_getD, List.getElem?_set_self hlt]
  · intro i hi hne
    simp [List.getD_eq_getElem?_getD, List.getElem?_set_ne (Ne.symm hne)]

/-- Witness for C4: on a fresh warehouse of capacity 8 the insertion
completes. -/
theorem addVehicle_effect_witness :
    (addVehicle 8 (warehouseInit 8) (Car 1001 "SAAB")).isSome = true := by
  obtain ⟨w₁, h1, -⟩ :=
    addVehicle_effect 8 (warehouseInit 8) (Car 1001 "SAAB") rfl
      (by decide) (by decide) (by decide)
  rw [h1]
  rfl

/-- C5: from a well-formed state with `count > 0`, `removeVehicle` completes,
returns the content of the slot at index `front`, clears that slot, advances
`front` to `(front + 1) % capacity`, decrements `count` by one, and leaves
`rear`, the storage size and every other slot unchanged. -/
theorem removeVehicle_effect (cap : Int) (w : Warehouse)
    (hlen : w.vehicles.length = cap.toNat)
    (hf0 : 0 ≤ w.front) (hf : w.front < cap) (hc : 0 < w.count) :
    ∃ w₁ r, removeVehicle cap w = some (w₁, r) ∧
      r = w.vehicles.getD w.front.toNat none ∧
      w₁.vehicles.getD w.front.toNat none = none ∧
      w₁.front = (w.front + 1).tmod cap ∧
      w₁.count = w.count - 1 ∧
      w₁.rear = w.rear ∧
      w₁.vehicles.length = w.vehicles.length ∧
      (∀ i : Nat, i < w.vehicles.length → i ≠ w.front.toNat →
        w₁.vehicles.getD i none = w.vehicles.getD i none) := by
  refine ⟨{ vehicles := w.vehicles.set w.front.toNat none
            count := w.count - 1
            front := (w.front + 1).tmod cap
            rear := w.rear },
          w.vehicles.getD w.front.toNat none,
          by rw [removeVehicle, if_pos hc], rfl, ?_, rfl, rfl, rfl, by simp, ?_⟩
  · have hlt : w.front.toNat < w.vehicles.length := by omega
    simp [List.getD_eq_getElem?_getD, List.getElem?_set_self hlt]
  · intro i hi hne
    simp [List.getD_eq_getElem?_getD, List.getElem?_set_ne (Ne.symm hne)]

/-- Witness for C5: on a warehouse of capacity 8 holding one vehicle the
removal completes. -/
theorem removeVehicle_effect_witness :
    (removeVehicle 8
      { vehicles := [some (Car 1001 "SAAB"), none, none, none, none, none, none, none]
        count := 1
        front := 0
        rear := 1 }).isSome = true := by
  obtain ⟨w₁, r, h1, -⟩ :=
    removeVehicle_effect 8
      { vehicles := [some (Car 1001 "SAAB"), none, none, none, none, none, none, none]
        count := 1
        front := 0
        rear := 1 }
      rfl (by decide) (by decide) (by decide)
  rw [h1]
  rfl

/-! ### Ring-buffer refinement: circular storage represents a FIFO queue -/

theorem tmod_bounds (cap x : Int) (hcap : 0 < cap) (hx : 0 ≤ x) :
    0 ≤ x.tmod cap ∧ x.tmod cap < cap := by
  rw [Int.tmod_eq_emod hx (le_of_lt hcap)]
  exact ⟨Int.emod_nonneg x (by omega), Int.emod_lt_of_pos x hcap⟩

theorem tmod_shift (cap a b : Int) (hcap : 0 < cap) (ha : 0 ≤ a) (hb : 0 ≤ b) :
    (a.tmod cap + b).tmod cap = (a + b).tmod cap := by
  have h1 := Int.tmod_eq_emod ha (le_of_lt hcap)
  have h2 : (0 : Int) ≤ a % cap := Int.emod_nonneg a (by omega)
  rw [h1, Int.tmod_eq_emod (by omega) (le_of_lt hcap),
      Int.tmod_eq_emod (by omega) (le_of_lt hcap)]
  exact Int.emod_add_emod a cap b

theorem offset_inj (cap a : Int) (hcap : 0 < cap) (ha : 0 ≤ a) {j k : Nat}
    (hj : (j : Int) < cap) (hk : (k : Int) < cap)
    (h : (a + (j : Int)).tmod cap = (a + (k : Int)).tmod cap) : j = k := by
  rw [Int.tmod_eq_emod (by omega) (le_of_lt hcap),
      Int.tmod_eq_emod (by omega) (le_of_lt hcap)] at h
  have hmod : Int.ModEq cap ((j : Int)) ((k : Int)) := Int.ModEq.add_left_cancel' a h
  have hj' : (j : Int) % cap = (k : Int) % cap := hmod
  rw [Int.emod_eq_of_lt (by omega) hj, Int.emod_eq_of_lt (by omega) hk] at hj'
  exact_mod_cast hj'

/-- The content of the slot `j` positions after `front`, reading circularly. -/
def slotAt (cap : Int) (w : Warehouse) (j : Nat) : Option Vehicle :=
  w.vehicles.getD ((w.front + (j : Int)).tmod cap).toNat none

/-- Coupling invariant between a `Warehouse` state and the abstract FIFO
queue `q` it represents: the storage has `capacity` slots, `front` is a valid
index, `count` is the queue length and fits in the capacity, `rear` sits
`count` positions after `front` circularly, and reading circularly from
`front` yields exactly the elements of `q` followed by empty slots. -/
structure Coupled (cap : Int) (w : Warehouse) (q : List Vehicle) : Prop where
  cap_pos : 0 < cap
  storage_len : w.vehicles.length = cap.toNat
  front_nonneg : 0 ≤ w.front
  front_lt : w.front < cap
  count_eq : w.count = (q.length : Int)
  count_le : w.count ≤ cap
  rear_eq : w.rear = (w.front + w.count).tmod cap
  slots : ∀ j : Nat, j < cap.toNat → slotAt cap w j = q[j]?

theorem coupled_init (cap : Int) (hcap : 0 < cap) : Coupled cap (warehouseInit cap) [] := by
  refine ⟨hcap, by simp [warehouseInit], le_refl 0, hcap, by simp [warehouseInit],
          by simp [warehouseInit]; omega, by simp [warehouseInit], ?_⟩
  intro j hj
  simp only [slotAt, warehouseInit, List.getD_eq_getElem?_getD, List.getElem?_replicate]
  split <;> rfl

theorem coupled_addVehicle {cap : Int} {w w₁ : Warehouse} {q : List Vehicle} {v : Vehicle}
    (hInv : Coupled cap w q) (h : addVehicle cap w v = some w₁) :
    Coupled cap w₁ (q ++ [v]) := by
  obtain ⟨hguard, rfl⟩ := addVehicle_eq_some h
  obtain ⟨hcap, hlen, hf0, hflt, hcnt, hcle, hrear, hslots⟩ := hInv
  have hc0 : 0 ≤ w.count := by omega
  have hclt : q.length < cap.toNat := by omega
  refine ⟨hcap, by simpa using hlen, hf0, hflt, by simp [hcnt],
          by show w.count + 1 ≤ cap; omega, ?_, ?_⟩
  · show (w.rear + 1).tmod cap = (w.front + (w.count + 1)).tmod cap
    rw [hrear, tmod_shift cap (w.front + w.count) 1 hcap (by omega) (by omega),
        add_assoc]
  · intro j hj
    have hjlt : (j : Int) < cap := by omega
    have hqlt : ((q.length : Nat) : Int) < cap := by omega
    have hbound := tmod_bounds cap (w.front + (j : Int)) hcap (by omega)
    have hidx : ((w.front + (j : Int)).tmod cap).toNat < w.vehicles.length := by omega
    have hrearN : w.rear.toNat = ((w.front + (q.length : Int)).tmod cap).toNat := by
      rw [hrear, hcnt]
    by_cases hje : j = q.length
    · have hEq : w.rear.toNat = ((w.front + (j : Int)).tmod cap).toNat := by
        rw [hrearN, hje]
      simp only [slotAt, List.getD_eq_getElem?_getD]
      rw [← hEq, List.getElem?_set_self (by rw [hEq]; exact hidx)]
      simp [hje]
    · have hne : w.rear.toNat ≠ ((w.front + (j : Int)).tmod cap).toNat := by
        rw [hrearN]
        intro heq
        have hb1 := tmod_bounds cap (w.front + (q.length : Int)) hcap (by omega)
        have heq2 : (w.front + ((q.length : Nat) : Int)).tmod cap
            = (w.front + (j : Int)).tmod cap := by omega
        exact hje (offset_inj cap w.front hcap hf0 hqlt hjlt heq2).symm
      simp only [slotAt, List.getD_eq_getElem?_getD, List.getElem?_set_ne hne]
      have hold := hslots j hj
      simp only [slotAt, List.getD_eq_getElem?_getD] at hold
      rw [hold]
      rcases Nat.lt_or_ge j q.length with hlt | hge
      · rw [List.getElem?_append_left hlt]
      · rw [List.getElem?_eq_none (by omega : q.length ≤ j),
            List.getElem?_eq_none (by simp; omega)]

theorem coupled_removeVehicle {cap : Int} {w w₁ : Warehouse} {q : List Vehicle}
    {r : Option Vehicle}
    (hInv : Coupled cap w q) (h : removeVehicle cap w = some (w₁, r)) :
    ∃ v₀ q₁, q = v₀ :: q₁ ∧ r = some v₀ ∧ Coupled cap w₁ q₁ := by
  obtain ⟨hguard, rfl, hr⟩ := removeVehicle_eq_some h
  obtain ⟨hcap, hlen, hf0, hflt, hcnt, hcle, hrear, hslots⟩ := hInv
  obtain ⟨v₀, q₁, rfl⟩ : ∃ v₀ q₁, q = v₀ :: q₁ := by
    cases q with
    | nil => simp at hcnt; omega
    | cons a t => exact ⟨a, t, rfl⟩
  have hcnt' : w.count = (q₁.length : Int) + 1 := by
    rw [hcnt]; simp
  have hfront_tmod : (w.front + ((0 : Nat) : Int)).tmod cap = w.front := by
    simp [Int.tmod_eq_of_lt hf0 hflt]
  have h0 := hslots 0 (by omega)
  simp only [slotAt] at h0
  rw [hfront_tmod] at h0
  have hfb := tmod_bounds cap (w.front + 1) hcap (by omega)
  refine ⟨v₀, q₁, rfl, by rw [hr, h0]; simp, ?_⟩
  refine ⟨hcap, by simpa using hlen, hfb.1, hfb.2,
          by show w.count - 1 = ((q₁.length : Nat) : Int); omega,
          by show w.count - 1 ≤ cap; omega, ?_, ?_⟩
  · show w.rear = ((w.front + 1).tmod cap + (w.count - 1)).tmod cap
    rw [tmod_shift cap (w.front + 1) (w.count - 1) hcap (by omega) (by omega)]
    have harr : w.front + 1 + (w.count - 1) = w.front + w.count := by ring
    rw [harr, ← hrear]
  · intro j hj
    have hjlt : (j : Int) < cap := by omega
    have hshift : (((w.front + 1).tmod cap) + (j : Int)).tmod cap
        = (w.front + ((j + 1 : Nat) : Int)).tmod cap := by
      rw [tmod_shift cap (w.front + 1) (j : Int) hcap (by omega) (by omega)]
      congr 1
      push_cast
      ring
    simp only [slotAt, List.getD_eq_getElem?_getD]
    rw [hshift]
    by_cases hje : j + 1 = cap.toNat
    · have hwrap : (w.front + ((j + 1 : Nat) : Int)).tmod cap = w.front := by
        have hcast : ((j + 1 : Nat) : Int) = cap := by omega
        rw [hcast, Int.tmod_eq_emod (by omega) (by omega), Int.add_emod_self,
            Int.emod_eq_of_lt hf0 hflt]
      rw [hwrap,
          List.getElem?_set_self (by omega : w.front.toNat < w.vehicles.length)]
      rw [List.getElem?_eq_none (by omega : q₁.length ≤ j)]
      rfl
    · have hj1lt : ((j + 1 : Nat) : Int) < cap := by omega
      have hb := tmod_bounds cap (w.front + ((j + 1 : Nat) : Int)) hcap (by omega)
      have hne : w.front.toNat ≠ ((w.front + ((j + 1 : Nat) : Int)).tmod cap).toNat := by
        intro heq
        have hfeq : (w.front + ((0 : Nat) : Int)).tmod cap
            = (w.front + ((j + 1 : Nat) : Int)).tmod cap := by
          rw [hfront_tmod]
          omega
        have h01 := offset_inj cap w.front hcap hf0
          (by omega : ((0 : Nat) : Int) < cap) hj1lt hfeq
        omega
      rw [List.getElem?_set_ne hne]
      have hold := hslots (j + 1) (by omega)
      simp only [slotAt, List.getD_eq_getElem?_getD] at hold
      rw [hold]
      simp

theorem runOps_coupled (cap : Int) (ops : List Op) :
    ∀ w q w₁ rs, Coupled cap w q → runOps cap w ops = some (w₁, rs) →
      Coupled cap w₁ ((q ++ addedOf ops).drop rs.length) ∧
      rs = ((q ++ addedOf ops).take rs.length).map some ∧
      rs.length ≤ (q ++ addedOf ops).length := by
  induction ops with
  | nil =>
    intro w q w₁ rs hInv hrun
    simp only [runOps, Option.some.injEq, Prod.mk.injEq] at hrun
    obtain ⟨rfl, rfl⟩ := hrun
    refine ⟨?_, by simp, by simp⟩
    simpa [addedOf] using hInv
  | cons o t ih =>
    intro w q w₁ rs hInv hrun
    cases o with
    | add v =>
      cases hadd : addVehicle cap w v with
      | none => simp [runOps, hadd] at hrun
      | some w₂ =>
        simp only [runOps, hadd] at hrun
        have hstep := coupled_addVehicle hInv hadd
        obtain ⟨ih1, ih2, ih3⟩ := ih w₂ (q ++ [v]) w₁ rs hstep hrun
        have hq : (q ++ [v]) ++ addedOf t = q ++ addedOf (Op.add v :: t) := by
          simp [addedOf]
        rw [hq] at ih1 ih2 ih3
        exact ⟨ih1, ih2, ih3⟩
    | remove =>
      cases hrem : removeVehicle cap w with
      | none => simp [runOps, hrem] at hrun
      | some p =>
        obtain ⟨w₂, r⟩ := p
        simp only [runOps, hrem] at hrun
        cases hrun2 : runOps cap w₂ t with
        | none => rw [hrun2] at hrun; simp at hrun
        | some p2 =>
          obtain ⟨wf, rs2⟩ := p2
          rw [hrun2] at hrun
          simp only [Option.some.injEq, Prod.mk.injEq] at hrun
          obtain ⟨rfl, rfl⟩ := hrun
          obtain ⟨v₀, q₁, rfl, rfl, hstep⟩ := coupled_removeVehicle hInv hrem
          obtain ⟨ih1, ih2, ih3⟩ := ih w₂ q₁ wf rs2 hstep hrun2
          have hq : (v₀ :: q₁) ++ addedOf (Op.remove :: t) = v₀ :: (q₁ ++ addedOf t) := by
            simp [addedOf]
          refine ⟨?_, ?_, ?_⟩
          · rw [hq]
            simpa using ih1
          · rw [hq]
            simp only [List.length_cons, List.take_succ_cons, List.map_cons]
            exact congrArg (List.cons (some v₀)) ih2
          · rw [hq]
            simp only [List.length_cons, List.length_append] at ih3 ⊢
            omega

/-- C2: FIFO order. Replaying any sequence of completed operations from a
fresh warehouse, the values returned by the removals are exactly the first
`rs.length` inserted vehicles, in insertion order; in particular the `k`-th
successful `removeVehicle` returns the `k`-th vehicle passed to
`addVehicle`. -/
theorem removal_order_fifo (cap : Int) (hcap : 0 < cap) (ops : List Op)
    (w₁ : Warehouse) (rs : List (Option Vehicle))
    (hrun : runOps cap (warehouseInit cap) ops = some (w₁, rs)) :
    rs = ((addedOf ops).take rs.length).map some ∧
    ∀ k : Nat, k < rs.length → rs[k]? = ((addedOf ops)[k]?).map some := by
  obtain ⟨-, h2, -⟩ :=
    runOps_coupled cap ops (warehouseInit cap) [] w₁ rs (coupled_init cap hcap) hrun
  simp only [List.nil_append] at h2
  refine ⟨h2, ?_⟩
  intro k hk
  conv_lhs => rw [h2]
  rw [List.getElem?_map, List.getElem?_take_of_lt hk]

/-- Witness for C2: capacity 2, insert one car then remove it; the single
removal returns the single inserted vehicle. -/
theorem removal_order_fifo_witness :
    [some (Car 1001 "SAAB")] =
      ((addedOf [Op.add (Car 1001 "SAAB"), Op.remove]).take
        ([some (Car 1001 "SAAB")] : List (Option Vehicle)).length).map some :=
  (removal_order_fifo 2 (by decide) [Op.add (Car 1001 "SAAB"), Op.remove]
    { vehicles := [none, none], count := 0, front := 1, rear := 1 }
    [some (Car 1001 "SAAB")] rfl).1

/-- C3: no loss, no duplication. Replaying any sequence of completed
operations from a fresh warehouse, the number of removed values plus the
number still buffered equals the number inserted; the removed values are the
first `rs.length` inserted vehicles, each exactly once; and if the buffer
ends empty the removals returned exactly the inserted vehicles, each exactly
once. -/
theorem no_loss_no_duplication (cap : Int) (hcap : 0 < cap) (ops : List Op)
    (w₁ : Warehouse) (rs : List (Option Vehicle))
    (hrun : runOps cap (warehouseInit cap) ops = some (w₁, rs)) :
    (rs.length : Int) + w₁.count = ((addedOf ops).length : Int) ∧
    rs = ((addedOf ops).take rs.length).map some ∧
    (w₁.count = 0 → rs = (addedOf ops).map some) := by
  obtain ⟨h1, h2, h3⟩ :=
    runOps_coupled cap ops (warehouseInit cap) [] w₁ rs (coupled_init cap hcap) hrun
  simp only [List.nil_append] at h1 h2 h3
  have hcnt := h1.count_eq
  rw [List.length_drop] at hcnt
  refine ⟨by omega, h2, ?_⟩
  intro h0
  have hlen : rs.length = (addedOf ops).length := by omega
  rw [h2, hlen, List.take_length]

/-- Witness for C3: capacity 2, two inserts then two removals drain the
buffer and return both inserted vehicles in order. -/
theorem no_loss_no_duplication_witness :
    [some (Car 1001 "SAAB"), some (Truck 1002 "VolvoTruck")] =
      (addedOf [Op.add (Car 1001 "SAAB"), Op.add (Truck 1002 "VolvoTruck"),
        Op.remove, Op.remove]).map some :=
  (no_loss_no_duplication 2 (by decide)
    [Op.add (Car 1001 "SAAB"), Op.add (Truck 1002 "VolvoTruck"), Op.remove, Op.remove]
    { vehicles := [none, none], count := 0, front := 0, rear := 0 }
    [some (Car 1001 "SAAB"), some (Truck 1002 "VolvoTruck")] rfl).2.2 rfl

/-! ### Count monotonicity along traces without removals / insertions -/

theorem runOps_count_mono_of_no_remove (cap : Int) (ops : List Op) :
    ∀ w w₁ rs, Op.remove ∉ ops → runOps cap w ops = some (w₁, rs) →
      w.count ≤ w₁.count := by
  induction ops with
  | nil =>
    intro w w₁ rs h hrun
    simp only [runOps, Option.some.injEq, Prod.mk.injEq] at hrun
    obtain ⟨rfl, rfl⟩ := hrun
    exact le_refl _
  | cons o t ih =>
    intro w w₁ rs h hrun
    cases o with
    | add v =>
      cases hadd : addVehicle cap w v with
      | none => simp [runOps, hadd] at hrun
      | some w₂ =>
        simp only [runOps, hadd] at hrun
        have hmem : Op.remove ∉ t := fun hm => h (List.mem_cons_of_mem _ hm)
        have hle := ih w₂ w₁ rs hmem hrun
        obtain ⟨-, rfl⟩ := addVehicle_eq_some hadd
        simp only [] at hle
        omega
    | remove => exact absurd (List.mem_cons_self _ _) h

theorem runOps_count_antitone_of_no_add (cap : Int) (ops : List Op) :
    ∀ w w₁ rs, (∀ v, Op.add v ∉ ops) → runOps cap w ops = some (w₁, rs) →
      w₁.count ≤ w.count := by
  induction ops with
  | nil =>
    intro w w₁ rs h hrun
    simp only [runOps, Option.some.injEq, Prod.mk.injEq] at hrun
    obtain ⟨rfl, rfl⟩ := hrun
    exact le_refl _
  | cons o t ih =>
    intro w w₁ rs h hrun
    cases o with
    | add v => exact absurd (List.mem_cons_self _ _) (h v)
    | remove =>
      cases hrem : removeVehicle cap w with
      | none => simp [runOps, hrem] at hrun
      | some p =>
        obtain ⟨w₂, r⟩ := p
        simp only [runOps, hrem] at hrun
        cases hrun2 : runOps cap w₂ t with
        | none => rw [hrun2] at hrun; simp at hrun
        | some p2 =>
          obtain ⟨wf, rs2⟩ := p2
          rw [hrun2] at hrun
          simp only [Option.some.injEq, Prod.mk.injEq] at hrun
          obtain ⟨rfl, rfl⟩ := hrun
          have hmem : ∀ v, Op.add v ∉ t := fun v hm => h v (List.mem_cons_of_mem _ hm)
          have hle := ih w₂ wf rs2 hmem hrun2
          obtain ⟨-, rfl, -⟩ := removeVehicle_eq_some hrem
          simp only [] at hle
          omega

/-- C6: blocking correctness. `addVehicle` completes only from a state with
`count < capacity` and `removeVehicle` only from a state with `count > 0`
(neither ever proceeds past its wait while its guard is false); and along any
replay of completed operations, moving from a full buffer (`count = cap`) to
one with room requires a removal among the completed operations, while moving
from an empty buffer to a nonempty one requires an insertion — so an
`addVehicle` issued at `count = cap` (resp. a `removeVehicle` issued at
`count = 0`) can only complete after a removal (resp. insertion) has
intervened. -/
theorem blocking_guards (cap : Int) (w w₁ : Warehouse) (ops : List Op)
    (rs : List (Option Vehicle)) (hrun : runOps cap w ops = some (w₁, rs)) :
    (∀ v w₂, addVehicle cap w₁ v = some w₂ → w₁.count < cap) ∧
    (∀ w₂ r, removeVehicle cap w₁ = some (w₂, r) → 0 < w₁.count) ∧
    (w.count = cap → w₁.count < cap → Op.remove ∈ ops) ∧
    (w.count = 0 → 0 < w₁.count → ∃ v, Op.add v ∈ ops) := by
  refine ⟨fun v w₂ h => (addVehicle_eq_some h).1,
          fun w₂ r h => (removeVehicle_eq_some h).1, ?_, ?_⟩
  · intro hfull hroom
    by_contra hmem
    have := runOps_count_mono_of_no_remove cap ops w w₁ rs hmem hrun
    omega
  · intro hempty hpos
    by_contra hmem
    push_neg at hmem
    have := runOps_count_antitone_of_no_add cap ops w w₁ rs hmem hrun
    omega

/-- Witness for C6: with capacity 1, going from the full buffer to one with
room forces a removal in the trace, and going from the empty buffer to a
nonempty one forces an insertion. -/
theorem blocking_guards_witness :
    Op.remove ∈ [Op.remove] ∧ ∃ v, Op.add v ∈ [Op.add (Car 1001 "SAAB")] := by
  constructor
  · exact (blocking_guards 1
      { vehicles := [some (Car 1001 "SAAB")], count := 1, front := 0, rear := 0 }
      { vehicles := [none], count := 0, front := 0, rear := 0 }
      [Op.remove] [some (Car 1001 "SAAB")] rfl).2.2.1 rfl (by decide)
  · exact (blocking_guards 1 (warehouseInit 1)
      { vehicles := [some (Car 1001 "SAAB")], count := 1, front := 0, rear := 0 }
      [Op.add (Car 1001 "SAAB")] [] rfl).2.2.2 rfl (by decide)
